import Mathlib

/-!
Verification development for `ConditionalAggregateWebpackPlugin.ts`.

The file shallowly embeds the plugin's logic:

* `FalseConditionPrinter` becomes the pure step function `onFalse` over an
  `Option Nat` state (the `printedAt` field; `Date.now()` is passed in as the
  `now` argument of each call).  JavaScript truthiness of `printedAt` is
  modelled by `printedAtFalsy` (both `undefined` and `0` are falsy).
* The watch-session closure (`changes`, `removals`, `timeout`, `printer`) of
  `ConditionalAggregateFileSystem.watch` becomes the `Session` record; the
  surrounding timer machinery (`setTimeout` / `clearTimeout`) is made explicit
  as a `World` carrying the set of pending timer ids and a fresh-id counter.
* Each underlying watcher callback or timer firing is an `Event`; `stepEvent`
  performs the merge + `runCallback` logic of the source, producing the
  observable `Output`s (downstream callback invocations and logger emissions).
* `apply`'s one-time startup barrier becomes `watchRunHandler` over an
  `ApplyState`; the successive results of the externally-dependent
  `condition(new Set(), new Set())` calls are abstracted as a list of timed
  `CondResult` decisions.
* Reference-level aliasing of the accepted snapshot (`copyChanges = changes;
  changes = new Set()`) is modelled separately by a small ref/store semantics
  (`SetStore`, `acceptSwap`).
-/

def DEFAULT_RECHECK_INTERVAL : Int := 200

def FALSE_CONDITION_PRINT_INTERVAL : Nat := 10000

/-- Result of the configured `condition` function: `true` in the source is
`accept`; a `string[]` return is `reject why`. -/
inductive CondResult where
  | accept
  | reject (why : List String)
  deriving DecidableEq, Repr

/-- The observable effects of the watch wrapper: invoking the downstream
`callback` with an error, invoking it with an accepted snapshot
(timestamps are opaque and omitted), or emitting a logger message. -/
inductive Output where
  | callbackErr (err : String)
  | callbackOk (changes removals : Finset String)
  | logInfo (msg : String)
  deriving DecidableEq

/-- JavaScript truthiness test performed by `if (!this.printedAt)`:
`undefined` and `0` are both falsy. -/
def printedAtFalsy : Option Nat → Bool
  | none => true
  | some t => t == 0

/-- `FalseConditionPrinter.onFalse(why)` as a pure function of the current
time, the reason lines and the `printedAt` state.  Returns the new state and
the emitted logger messages (at most one). -/
def onFalse (now : Nat) (why : List String) (printedAt : Option Nat) :
    Option Nat × List Output :=
  let pa := if printedAtFalsy printedAt then some now else printedAt
  if FALSE_CONDITION_PRINT_INTERVAL < now - pa.getD 0 then
    (some now,
     if 0 < why.length then [Output.logInfo (String.intercalate " " why)] else [])
  else
    (pa, [])

/-- The mutable closure state of one `watch` call: the accumulated `changes`
and `removals` sets, the pending `timeout` handle and the per-watch printer's
`printedAt`. -/
structure Session where
  changes : Finset String
  removals : Finset String
  timeout : Option Nat
  printedAt : Option Nat
  deriving DecidableEq

/-- A session together with the host timer machinery: `pending` is the set of
scheduled, not yet fired or cancelled timer ids, `nextId` the next fresh id
handed out by `setTimeout`. -/
structure World where
  sess : Session
  pending : Finset Nat
  nextId : Nat
  deriving DecidableEq

def initWorld : World :=
  { sess := { changes := ∅, removals := ∅, timeout := none, printedAt := none },
    pending := ∅, nextId := 0 }

/-- The type of the configured `condition` function. -/
abbrev Cond := Finset String → Finset String → CondResult

/-- The `if (timeout) { clearTimeout(timeout); timeout = undefined; }`
preamble of `runCallback`. -/
def clearPending (w : World) : World :=
  match w.sess.timeout with
  | some id =>
      { w with sess := { w.sess with timeout := none },
               pending := w.pending.erase id }
  | none => w

/-- The body of `runCallback`: cancel any pending retry, then either propagate
the error, deliver an accepted snapshot and swap in empty sets, or report the
rejection and schedule a retry. -/
def runCallback (cond : Cond) (err : Option String) (now : Nat) (w : World) :
    World × List Output :=
  let w := clearPending w
  match err with
  | some e =>
      ({ w with sess := { w.sess with printedAt := none } },
       [Output.callbackErr e])
  | none =>
    match cond w.sess.changes w.sess.removals with
    | CondResult.accept =>
        ({ w with sess :=
            { changes := ∅, removals := ∅, timeout := none, printedAt := none } },
         [Output.callbackOk w.sess.changes w.sess.removals])
    | CondResult.reject why =>
        let r := onFalse now why w.sess.printedAt
        ({ w with
            sess := { w.sess with printedAt := r.1, timeout := some w.nextId },
            pending := insert w.nextId w.pending,
            nextId := w.nextId + 1 },
         r.2)

/-- External stimuli of one watch session: a raw watcher notification
(with optional error and the per-notification changed/removed id sets), or the
firing of a scheduled retry timer. -/
inductive Event where
  | notify (err : Option String) (changed removed : Finset String) (now : Nat)
  | timerFire (now : Nat)
  deriving DecidableEq

/-- Processing of one event.  A notification first merges its id sets into the
accumulated sets (only when error-free, as in the source) and then runs
`runCallback`; a timer firing runs `runCallback` with no error, and is a no-op
if the timer is no longer pending. -/
def stepEvent (cond : Cond) (w : World) (e : Event) : World × List Output :=
  match e with
  | Event.notify err changed removed now =>
      let w1 :=
        if err.isNone then
          { w with sess := { w.sess with
              changes := w.sess.changes ∪ changed,
              removals := w.sess.removals ∪ removed } }
        else w
      runCallback cond err now w1
  | Event.timerFire now =>
      match w.sess.timeout with
      | some id =>
          if id ∈ w.pending then
            runCallback cond none now { w with pending := w.pending.erase id }
          else (w, [])
      | none => (w, [])

/-- Run a list of events from a world, concatenating the outputs. -/
def runEvents (cond : Cond) (w : World) : List Event → World × List Output
  | [] => (w, [])
  | e :: es =>
      let r := stepEvent cond w e
      let r2 := runEvents cond r.1 es
      (r2.1, r.2 ++ r2.2)

def eventErr : Event → Option String
  | Event.notify err _ _ _ => err
  | Event.timerFire _ => none

def eventChanged : Event → Finset String
  | Event.notify _ changed _ _ => changed
  | Event.timerFire _ => ∅

def eventRemoved : Event → Finset String
  | Event.notify _ _ removed _ => removed
  | Event.timerFire _ => ∅

/-- All notifications in the list are error-free. -/
def errFree (es : List Event) : Prop := ∀ e ∈ es, eventErr e = none

instance errFreeDec (es : List Event) : Decidable (errFree es) := by
  unfold errFree
  infer_instance

/-- Union of the changed ids over a whole event sequence. -/
def unionChanged (es : List Event) : Finset String :=
  es.foldl (fun acc e => acc ∪ eventChanged e) ∅

/-- Union of the removed ids over a whole event sequence. -/
def unionRemoved (es : List Event) : Finset String :=
  es.foldl (fun acc e => acc ∪ eventRemoved e) ∅

def isOk : Output → Bool
  | Output.callbackOk _ _ => true
  | _ => false

/-- No accepted-snapshot delivery occurs among the outputs (every evaluation
of the gate rejected). -/
def noAccept (outs : List Output) : Prop := ∀ o ∈ outs, isOk o = false

instance noAcceptDec (outs : List Output) : Decidable (noAccept outs) := by
  unfold noAccept
  infer_instance

/-- The `changes.size >= 2` predicate of the spec's scenario. -/
def condAtLeastTwo : Cond :=
  fun changes _ => if 2 ≤ changes.card then CondResult.accept else CondResult.reject []

/-- C7: a rejection whose reason list is empty never produces a log emission,
whatever the elapsed time and printer state. -/
theorem spec_C7 (now : Nat) (printedAt : Option Nat) :
    (onFalse now [] printedAt).2 = [] := by
  unfold onFalse
  dsimp only
  split <;> split <;> simp

/-- C2: with the `changes.size >= 2` predicate, two error-free notifications
each adding one distinct changed id produce no downstream callback after the
first, and exactly one callback after the second, carrying both ids as the
changed set and an empty removed set. -/
theorem spec_C2 :
    (runEvents condAtLeastTwo initWorld [Event.notify none {"a"} ∅ 10]).2 = [] ∧
    (runEvents condAtLeastTwo initWorld
        [Event.notify none {"a"} ∅ 10, Event.notify none {"b"} ∅ 20]).2 =
      [Output.callbackOk {"a", "b"} ∅] := by
  constructor <;> rfl

/-- C4: a notification carrying an error invokes the downstream callback with
exactly that error and nothing else, does not consult the predicate (the
result is the same for every predicate), leaves the accumulated sets
untouched, clears the reporter's window start, and schedules no retry
(`nextId` is unchanged and `pending` only loses the cancelled timer). -/
theorem spec_C4 (cond cond2 : Cond) (w : World) (e : String)
    (changed removed : Finset String) (now : Nat) :
    stepEvent cond w (Event.notify (some e) changed removed now) =
      stepEvent cond2 w (Event.notify (some e) changed removed now) ∧
    (stepEvent cond w (Event.notify (some e) changed removed now)).2 =
      [Output.callbackErr e] ∧
    (stepEvent cond w (Event.notify (some e) changed removed now)).1.sess.changes =
      w.sess.changes ∧
    (stepEvent cond w (Event.notify (some e) changed removed now)).1.sess.removals =
      w.sess.removals ∧
    (stepEvent cond w (Event.notify (some e) changed removed now)).1.sess.printedAt =
      none ∧
    (stepEvent cond w (Event.notify (some e) changed removed now)).1.sess.timeout =
      none ∧
    (stepEvent cond w (Event.notify (some e) changed removed now)).1.nextId =
      w.nextId ∧
    (stepEvent cond w (Event.notify (some e) changed removed now)).1.pending =
      (clearPending w).pending := by
  cases h : w.sess.timeout <;>
    simp [stepEvent, runCallback, clearPending, h]

/-- The singleton (or empty) finset holding the current `timeout` handle. -/
def timeoutSet (w : World) : Finset Nat :=
  match w.sess.timeout with
  | some id => {id}
  | none => ∅

theorem clearPending_timeout (w : World) : (clearPending w).sess.timeout = none := by
  unfold clearPending
  cases h : w.sess.timeout <;> simp [h]

theorem clearPending_pending_empty (w : World) (h : w.pending = timeoutSet w) :
    (clearPending w).pending = ∅ := by
  unfold clearPending
  unfold timeoutSet at h
  cases hto : w.sess.timeout with
  | none => rw [hto] at h; simpa [hto] using h
  | some id => rw [hto] at h; simp [hto, h]

theorem runCallback_timeoutSet (cond : Cond) (err : Option String) (now : Nat)
    (w : World) (hp : (clearPending w).pending = ∅) :
    (runCallback cond err now w).1.pending =
      timeoutSet (runCallback cond err now w).1 := by
  have ht : (clearPending w).sess.timeout = none := clearPending_timeout w
  unfold runCallback
  cases err with
  | some e => simp [timeoutSet, ht, hp]
  | none =>
      cases hc : cond (clearPending w).sess.changes (clearPending w).sess.removals with
      | accept => simp [hc, timeoutSet, hp]
      | reject why => simp [hc, timeoutSet, hp]

theorem stepEvent_timeoutSet (cond : Cond) (w : World) (e : Event)
    (h : w.pending = timeoutSet w) :
    (stepEvent cond w e).1.pending = timeoutSet (stepEvent cond w e).1 := by
  cases e with
  | notify err changed removed now =>
      unfold stepEvent
      cases err with
      | none =>
          simp only [Option.isNone_none, if_true]
          refine runCallback_timeoutSet cond none now _ ?_
          exact clearPending_pending_empty _ h
      | some msg =>
          simp only [Option.isNone_some, Bool.false_eq_true, if_false]
          refine runCallback_timeoutSet cond (some msg) now _ ?_
          exact clearPending_pending_empty _ h
  | timerFire now =>
      unfold stepEvent
      unfold timeoutSet at h
      cases hto : w.sess.timeout with
      | none =>
          rw [hto] at h
          simpa [hto, timeoutSet] using h
      | some id =>
          rw [hto] at h
          by_cases hmem : id ∈ w.pending
          · simp only [hto, hmem, if_true]
            refine runCallback_timeoutSet cond none now _ ?_
            simp [clearPending, hto, h]
          · have hin : id ∈ w.pending := by rw [h]; exact Finset.mem_singleton_self id
            exact absurd hin hmem

theorem runEvents_timeoutSet (cond : Cond) (w : World) (es : List Event)
    (h : w.pending = timeoutSet w) :
    (runEvents cond w es).1.pending = timeoutSet (runEvents cond w es).1 := by
  induction es generalizing w with
  | nil => simpa [runEvents] using h
  | cons e es ih =>
      simp only [runEvents]
      exact ih _ (stepEvent_timeoutSet cond w e h)

theorem clearPending_changes (w : World) :
    (clearPending w).sess.changes = w.sess.changes := by
  unfold clearPending
  cases h : w.sess.timeout <;> simp [h]

theorem clearPending_removals (w : World) :
    (clearPending w).sess.removals = w.sess.removals := by
  unfold clearPending
  cases h : w.sess.timeout <;> simp [h]

theorem onFalse_no_ok (now : Nat) (why : List String) (pa : Option Nat) :
    ∀ o ∈ (onFalse now why pa).2, isOk o = false := by
  intro o ho
  unfold onFalse at ho
  dsimp only at ho
  by_cases h1 : FALSE_CONDITION_PRINT_INTERVAL <
      now - (if printedAtFalsy pa = true then some now else pa).getD 0
  · rw [if_pos h1] at ho
    dsimp only at ho
    by_cases h2 : 0 < why.length
    · rw [if_pos h2] at ho
      simp only [List.mem_singleton] at ho
      subst ho
      rfl
    · rw [if_neg h2] at ho
      exact absurd ho (List.not_mem_nil o)
  · rw [if_neg h1] at ho
    dsimp only at ho
    exact absurd ho (List.not_mem_nil o)

/-- Any accepted snapshot delivered by `runCallback` is exactly the
accumulated pair at the time of the call. -/
theorem runCallback_ok (cond : Cond) (err : Option String) (now : Nat)
    (w : World) (S R : Finset String)
    (hmem : Output.callbackOk S R ∈ (runCallback cond err now w).2) :
    S = w.sess.changes ∧ R = w.sess.removals := by
  unfold runCallback at hmem
  cases err with
  | some e => simp at hmem
  | none =>
      dsimp only at hmem
      revert hmem
      rcases hc : cond (clearPending w).sess.changes (clearPending w).sess.removals
        with _ | why
      · intro hmem
        simp only [List.mem_singleton, Output.callbackOk.injEq] at hmem
        rw [clearPending_changes, clearPending_removals] at hmem
        exact hmem
      · intro hmem
        have h := onFalse_no_ok now why (clearPending w).sess.printedAt _ hmem
        simp [isOk] at h

/-- When every output of an error-free `runCallback` is a rejection (no
accepted snapshot), the accumulated sets are unchanged. -/
theorem runCallback_reject_sess (cond : Cond) (now : Nat) (w : World)
    (hno : noAccept (runCallback cond none now w).2) :
    (runCallback cond none now w).1.sess.changes = w.sess.changes ∧
    (runCallback cond none now w).1.sess.removals = w.sess.removals := by
  unfold runCallback at hno ⊢
  dsimp only at hno ⊢
  revert hno
  rcases hc : cond (clearPending w).sess.changes (clearPending w).sess.removals
    with _ | why
  · intro hno
    have h := hno _ (List.mem_singleton_self _)
    simp [isOk] at h
  · intro _
    exact ⟨clearPending_changes w, clearPending_removals w⟩

theorem runEvents_append (cond : Cond) (w : World) (es fs : List Event) :
    runEvents cond w (es ++ fs) =
      ((runEvents cond (runEvents cond w es).1 fs).1,
       (runEvents cond w es).2 ++ (runEvents cond (runEvents cond w es).1 fs).2) := by
  induction es generalizing w with
  | nil => simp [runEvents]
  | cons e es ih => simp [runEvents, ih]

theorem unionChanged_append (es : List Event) (e : Event) :
    unionChanged (es ++ [e]) = unionChanged es ∪ eventChanged e := by
  unfold unionChanged
  rw [List.foldl_append]
  rfl

theorem unionRemoved_append (es : List Event) (e : Event) :
    unionRemoved (es ++ [e]) = unionRemoved es ∪ eventRemoved e := by
  unfold unionRemoved
  rw [List.foldl_append]
  rfl

/-- One error-free, fully-rejected step grows the accumulated sets by exactly
the notification's id sets. -/
theorem stepEvent_accum (cond : Cond) (w : World) (e : Event)
    (he : eventErr e = none)
    (hno : noAccept (stepEvent cond w e).2) :
    (stepEvent cond w e).1.sess.changes = w.sess.changes ∪ eventChanged e ∧
    (stepEvent cond w e).1.sess.removals = w.sess.removals ∪ eventRemoved e := by
  cases e with
  | notify err changed removed now =>
      have herr : err = none := he
      subst herr
      unfold stepEvent at hno ⊢
      simp only [Option.isNone_none, if_true] at hno ⊢
      obtain ⟨h1, h2⟩ := runCallback_reject_sess cond now _ hno
      exact ⟨h1, h2⟩
  | timerFire now =>
      unfold stepEvent at hno ⊢
      dsimp only at hno ⊢
      cases hto : w.sess.timeout with
      | none => simp [eventChanged, eventRemoved]
      | some id =>
          rw [hto] at hno
          by_cases hmem : id ∈ w.pending
          · simp only [hmem, if_true] at hno ⊢
            obtain ⟨h1, h2⟩ := runCallback_reject_sess cond now _ hno
            simp only [eventChanged, eventRemoved, Finset.union_empty]
            exact ⟨h1, h2⟩
          · simp [hmem, eventChanged, eventRemoved]

/-- While every gate evaluation rejects, the accumulated sets are exactly the
unions of all notified ids so far. -/
theorem runEvents_accum (cond : Cond) (es : List Event) :
    errFree es → noAccept (runEvents cond initWorld es).2 →
    (runEvents cond initWorld es).1.sess.changes = unionChanged es ∧
    (runEvents cond initWorld es).1.sess.removals = unionRemoved es := by
  induction es using List.reverseRecOn with
  | nil => intro _ _; exact ⟨rfl, rfl⟩
  | append_singleton es e ih =>
      intro hf hno
      have hfes : errFree es := fun x hx => hf x (List.mem_append_left _ hx)
      have hfe : eventErr e = none :=
        hf e (List.mem_append_right _ (List.mem_singleton_self e))
      rw [runEvents_append] at hno ⊢
      simp only [runEvents, List.append_nil] at hno ⊢
      have hno1 : noAccept (runEvents cond initWorld es).2 :=
        fun o ho => hno o (List.mem_append_left _ ho)
      have hno2 : noAccept (stepEvent cond (runEvents cond initWorld es).1 e).2 :=
        fun o ho => hno o (List.mem_append_right _ ho)
      obtain ⟨ih1, ih2⟩ := ih hfes hno1
      obtain ⟨s1, s2⟩ := stepEvent_accum cond _ e hfe hno2
      rw [unionChanged_append, unionRemoved_append, s1, s2, ih1, ih2]
      exact ⟨rfl, rfl⟩

/-- C1: over any error-free event sequence in which every intermediate gate
evaluation rejects and the final one accepts, the delivered snapshot is the
union of all changed ids and the union of all removed ids of the whole
sequence (no cross-cancellation between changes and removals). -/
theorem spec_C1 (cond : Cond) (es : List Event) (e : Event)
    (hf : errFree (es ++ [e]))
    (hno : noAccept (runEvents cond initWorld es).2)
    (S R : Finset String)
    (hmem : Output.callbackOk S R ∈ (stepEvent cond (runEvents cond initWorld es).1 e).2) :
    S = unionChanged (es ++ [e]) ∧ R = unionRemoved (es ++ [e]) := by
  have hfes : errFree es := fun x hx => hf x (List.mem_append_left _ hx)
  have hfe : eventErr e = none :=
    hf e (List.mem_append_right _ (List.mem_singleton_self e))
  obtain ⟨h1, h2⟩ := runEvents_accum cond es hfes hno
  rw [unionChanged_append, unionRemoved_append, ← h1, ← h2]
  cases e with
  | notify err changed removed now =>
      have herr : err = none := hfe
      subst herr
      unfold stepEvent at hmem
      simp only [Option.isNone_none, if_true] at hmem
      obtain ⟨hS, hR⟩ := runCallback_ok cond none now _ S R hmem
      exact ⟨hS, hR⟩
  | timerFire now =>
      unfold stepEvent at hmem
      dsimp only at hmem
      cases hto : (runEvents cond initWorld es).1.sess.timeout with
      | none => rw [hto] at hmem; simp at hmem
      | some id =>
          rw [hto] at hmem
          by_cases hpm : id ∈ (runEvents cond initWorld es).1.pending
          · simp only [hpm, if_true] at hmem
            obtain ⟨hS, hR⟩ := runCallback_ok cond none now _ S R hmem
            simp only [eventChanged, eventRemoved, Finset.union_empty]
            exact ⟨hS, hR⟩
          · simp [hpm] at hmem

/-- C5: along every event sequence of a watch session, at most one retry
timer is pending: the set of scheduled-and-uncancelled timers is always the
(at most singleton) set holding the current `timeout` handle. -/
theorem spec_C5 (cond : Cond) (es : List Event) :
    ((runEvents cond initWorld es).1.pending).card ≤ 1 := by
  have h := runEvents_timeoutSet cond initWorld es (by simp [initWorld, timeoutSet])
  rw [h]
  unfold timeoutSet
  cases (runEvents cond initWorld es).1.sess.timeout <;> simp

theorem spec_C1_witness :
    ({"a", "b"} : Finset String) =
      unionChanged ([Event.notify none {"a"} ∅ 10] ++ [Event.notify none {"b"} {"r"} 20]) ∧
    ({"r"} : Finset String) =
      unionRemoved ([Event.notify none {"a"} ∅ 10] ++ [Event.notify none {"b"} {"r"} 20]) :=
  spec_C1 condAtLeastTwo [Event.notify none {"a"} ∅ 10] (Event.notify none {"b"} {"r"} 20)
    (by decide) (by decide) {"a", "b"} {"r"} (by decide)

theorem FCPIval : FALSE_CONDITION_PRINT_INTERVAL = 10000 := rfl

theorem onFalse_fresh (now : Nat) (why : List String) :
    onFalse now why none = (some now, []) := by
  unfold onFalse
  dsimp only [printedAtFalsy]
  rw [if_pos rfl]
  rw [if_neg (by simp)]

theorem onFalse_zero (now : Nat) (why : List String) :
    onFalse now why (some 0) = (some now, []) := by
  unfold onFalse
  simp [printedAtFalsy]

theorem onFalse_quiet (now : Nat) (why : List String) (p : Nat) (h0 : p ≠ 0)
    (h : now - p ≤ FALSE_CONDITION_PRINT_INTERVAL) :
    onFalse now why (some p) = (some p, []) := by
  have h2 : ¬ (FALSE_CONDITION_PRINT_INTERVAL < now - p) := Nat.not_lt.mpr h
  unfold onFalse
  simp [printedAtFalsy, h0, h2]

theorem onFalse_emit_st (now : Nat) (why : List String) (p : Nat) (h0 : p ≠ 0)
    (h : FALSE_CONDITION_PRINT_INTERVAL < now - p) :
    (onFalse now why (some p)).1 = some now := by
  unfold onFalse
  simp [printedAtFalsy, h0, h]

theorem onFalse_len_le (now : Nat) (why : List String) (st : Option Nat) :
    (onFalse now why st).2.length ≤ 1 := by
  unfold onFalse
  dsimp only
  by_cases h1 : FALSE_CONDITION_PRINT_INTERVAL <
      now - (if printedAtFalsy st = true then some now else st).getD 0
  · rw [if_pos h1]
    dsimp only
    by_cases h2 : 0 < why.length
    · rw [if_pos h2]; simp
    · rw [if_neg h2]; simp
  · rw [if_neg h1]; simp

/-- Fold `onFalse` over a list of timed rejection reports, counting the log
emissions. -/
def runOnFalse (calls : List (Nat × List String)) (st : Option Nat) :
    Option Nat × Nat :=
  match calls with
  | [] => (st, 0)
  | c :: rest =>
      let r := onFalse c.1 c.2 st
      let r2 := runOnFalse rest r.1
      (r2.1, r.2.length + r2.2)

/-- Invariant tying the emission count so far to the tracked window start, for
rejection streaks whose call times all lie in `[a, a + 25000]`. -/
def falseInv (a : Nat) (st : Option Nat) (k : Nat) : Prop :=
  (k = 0 ∧ (st = none ∨ ∃ p, st = some p ∧ a ≤ p ∧ p ≤ a + 25000)) ∨
  (k = 1 ∧ ∃ p, st = some p ∧ a + 10000 < p ∧ p ≤ a + 25000) ∨
  (k = 2 ∧ ∃ p, st = some p ∧ a + 20000 < p ∧ p ≤ a + 25000)

theorem falseInv_step (a t : Nat) (why : List String) (st : Option Nat) (k : Nat)
    (hinv : falseInv a st k) (h1 : a ≤ t) (h2 : t ≤ a + 25000) :
    falseInv a (onFalse t why st).1 (k + (onFalse t why st).2.length) := by
  have hlen := onFalse_len_le t why st
  rcases hinv with ⟨hk, hst⟩ | ⟨hk, p, hp, hlo, hhi⟩ | ⟨hk, p, hp, hlo, hhi⟩
  · subst hk
    rcases hst with hnone | ⟨p, hp, hlo, hhi⟩
    · subst hnone
      rw [onFalse_fresh]
      exact Or.inl ⟨rfl, Or.inr ⟨t, rfl, h1, h2⟩⟩
    · subst hp
      by_cases h0 : p = 0
      · subst h0
        rw [onFalse_zero]
        exact Or.inl ⟨rfl, Or.inr ⟨t, rfl, h1, h2⟩⟩
      · by_cases hq : t - p ≤ FALSE_CONDITION_PRINT_INTERVAL
        · rw [onFalse_quiet t why p h0 hq]
          exact Or.inl ⟨rfl, Or.inr ⟨p, rfl, hlo, hhi⟩⟩
        · have hq2 : FALSE_CONDITION_PRINT_INTERVAL < t - p := Nat.not_le.mp hq
          rw [onFalse_emit_st t why p h0 hq2]
          rcases Nat.le_one_iff_eq_zero_or_eq_one.mp hlen with hl | hl
          · rw [hl]
            exact Or.inl ⟨rfl, Or.inr ⟨t, rfl, h1, h2⟩⟩
          · rw [hl]
            refine Or.inr (Or.inl ⟨rfl, t, rfl, ?_, h2⟩)
            rw [FCPIval] at hq2
            omega
  · subst hk
    subst hp
    have h0 : p ≠ 0 := by omega
    by_cases hq : t - p ≤ FALSE_CONDITION_PRINT_INTERVAL
    · rw [onFalse_quiet t why p h0 hq]
      exact Or.inr (Or.inl ⟨rfl, p, rfl, hlo, hhi⟩)
    · have hq2 : FALSE_CONDITION_PRINT_INTERVAL < t - p := Nat.not_le.mp hq
      rw [onFalse_emit_st t why p h0 hq2]
      rw [FCPIval] at hq2
      rcases Nat.le_one_iff_eq_zero_or_eq_one.mp hlen with hl | hl
      · rw [hl]
        refine Or.inr (Or.inl ⟨rfl, t, rfl, ?_, h2⟩)
        omega
      · rw [hl]
        refine Or.inr (Or.inr ⟨rfl, t, rfl, ?_, h2⟩)
        omega
  · subst hk
    subst hp
    have h0 : p ≠ 0 := by omega
    by_cases hq : t - p ≤ FALSE_CONDITION_PRINT_INTERVAL
    · rw [onFalse_quiet t why p h0 hq]
      exact Or.inr (Or.inr ⟨rfl, p, rfl, hlo, hhi⟩)
    · have hq2 : FALSE_CONDITION_PRINT_INTERVAL < t - p := Nat.not_le.mp hq
      rw [FCPIval] at hq2
      omega

theorem runOnFalse_inv (a : Nat) (calls : List (Nat × List String)) :
    ∀ st k, falseInv a st k →
      (∀ c ∈ calls, a ≤ c.1 ∧ c.1 ≤ a + 25000) →
      falseInv a (runOnFalse calls st).1 (k + (runOnFalse calls st).2) := by
  induction calls with
  | nil =>
      intro st k hinv _
      simpa [runOnFalse] using hinv
  | cons c rest ih =>
      intro st k hinv hb
      obtain ⟨hc1, hc2⟩ := hb c (List.mem_cons_self c rest)
      have hrest : ∀ x ∈ rest, a ≤ x.1 ∧ x.1 ≤ a + 25000 :=
        fun x hx => hb x (List.mem_cons_of_mem c hx)
      have hstep := falseInv_step a c.1 c.2 st k hinv hc1 hc2
      have hrec := ih _ _ hstep hrest
      simp only [runOnFalse]
      rw [← Nat.add_assoc]
      exact hrec

theorem falseInv_le (a : Nat) (st : Option Nat) (k : Nat) (h : falseInv a st k) :
    k ≤ 2 := by
  rcases h with ⟨hk, _⟩ | ⟨hk, _⟩ | ⟨hk, _⟩ <;> omega

/-- C6: the first `onFalse` call of a fresh streak never emits; after any
emitting call at time `t`, no further call up to `t + 10000` ms emits (at most
one emission per window); and any streak of rejection reports whose times lie
within a 25000 ms span produces at most 3 emissions. -/
theorem spec_C6 :
    (∀ t why, (onFalse t why none).2 = []) ∧
    (∀ t why st t2 why2, (onFalse t why st).2 ≠ [] →
        t2 ≤ t + FALSE_CONDITION_PRINT_INTERVAL →
        (onFalse t2 why2 (onFalse t why st).1).2 = []) ∧
    (∀ a calls, (∀ c ∈ calls, a ≤ Prod.fst c ∧ Prod.fst c ≤ a + 25000) →
        (runOnFalse calls none).2 ≤ 3) := by
  refine ⟨?_, ?_, ?_⟩
  · intro t why
    rw [onFalse_fresh]
  · intro t why st t2 why2 hne hle
    have hres : (onFalse t why st).1 = some t := by
      cases st with
      | none => exact absurd (by rw [onFalse_fresh]) hne
      | some p =>
          by_cases h0 : p = 0
          · subst h0
            exact absurd (by rw [onFalse_zero]) hne
          · by_cases hq : t - p ≤ FALSE_CONDITION_PRINT_INTERVAL
            · exact absurd (by rw [onFalse_quiet t why p h0 hq]) hne
            · exact onFalse_emit_st t why p h0 (Nat.not_le.mp hq)
    rw [hres]
    by_cases h0 : t = 0
    · subst h0
      rw [onFalse_zero]
    · rw [onFalse_quiet t2 why2 t h0 (by rw [FCPIval] at hle ⊢; omega)]
  · intro a calls hb
    have h0 : falseInv a none 0 := Or.inl ⟨rfl, Or.inl rfl⟩
    have h := runOnFalse_inv a calls none 0 h0 hb
    have h2 := falseInv_le a _ _ h
    omega

theorem spec_C6_witness :
    (onFalse 7 ["x"] none).2 = [] ∧
    (onFalse 25000 ["y"] (onFalse 20000 ["x"] (some 5)).1).2 = [] ∧
    (runOnFalse [(100, ["x"]), (101, ["x"])] none).2 ≤ 3 :=
  ⟨spec_C6.1 7 ["x"],
   spec_C6.2.1 20000 ["x"] (some 5) 25000 ["y"] (by decide) (by decide),
   spec_C6.2.2 100 [(100, ["x"]), (101, ["x"])] (by decide)⟩

/-- A heap of set instances, for reasoning about reference aliasing of the
accepted snapshot: each `Nat` ref denotes one JavaScript `Set` object. -/
structure SetStore where
  contents : Nat → Finset String
  nextRef : Nat

/-- `new Set()`: allocate a fresh empty set instance. -/
def allocSet (s : SetStore) : Nat × SetStore :=
  (s.nextRef,
   { contents := fun r => if r = s.nextRef then ∅ else s.contents r,
     nextRef := s.nextRef + 1 })

/-- `set.add(x)` on the instance behind ref `r`. -/
def addToSet (s : SetStore) (r : Nat) (x : String) : SetStore :=
  { contents := fun q => if q = r then insert x (s.contents q) else s.contents q,
    nextRef := s.nextRef }

/-- A whole sequence of `add` mutations on the instance behind ref `r`. -/
def addAllToSet (s : SetStore) (r : Nat) (xs : List String) : SetStore :=
  xs.foldl (fun st x => addToSet st r x) s

/-- The session's two accumulated-set fields, by reference. -/
structure RefSession where
  changesRef : Nat
  removalsRef : Nat
  deriving DecidableEq

/-- The accept branch of `runCallback` at the reference level:
`copyChanges = changes; copyRemovals = removals; changes = new Set();
removals = new Set()`.  Returns (snapshot refs, new session refs, store). -/
def acceptSwap (s : SetStore) (sess : RefSession) :
    RefSession × RefSession × SetStore :=
  let copyChanges := sess.changesRef
  let copyRemovals := sess.removalsRef
  let a1 := allocSet s
  let a2 := allocSet a1.2
  (⟨copyChanges, copyRemovals⟩, ⟨a1.1, a2.1⟩, a2.2)

theorem addAllToSet_frame (xs : List String) (s : SetStore) (r q : Nat)
    (hq : q ≠ r) : (addAllToSet s r xs).contents q = s.contents q := by
  induction xs generalizing s with
  | nil => rfl
  | cons x xs ih =>
      show (addAllToSet (addToSet s r x) r xs).contents q = _
      rw [ih (addToSet s r x)]
      simp [addToSet, hq]

/-- C3: on acceptance the implementation swaps in fresh empty set instances:
the snapshot refs differ from the new accumulation refs, the new accumulation
sets start empty, the snapshot's contents survive the swap, and no sequence
of later mutations of the new accumulation sets changes the snapshot's
contents. -/
theorem spec_C3 (s : SetStore) (sess : RefSession)
    (hc : sess.changesRef < s.nextRef) (hr : sess.removalsRef < s.nextRef) :
    (acceptSwap s sess).1.changesRef ≠ (acceptSwap s sess).2.1.changesRef ∧
    (acceptSwap s sess).1.removalsRef ≠ (acceptSwap s sess).2.1.removalsRef ∧
    (acceptSwap s sess).2.2.contents (acceptSwap s sess).2.1.changesRef = ∅ ∧
    (acceptSwap s sess).2.2.contents (acceptSwap s sess).2.1.removalsRef = ∅ ∧
    (acceptSwap s sess).2.2.contents (acceptSwap s sess).1.changesRef =
      s.contents sess.changesRef ∧
    (acceptSwap s sess).2.2.contents (acceptSwap s sess).1.removalsRef =
      s.contents sess.removalsRef ∧
    (∀ xs ys : List String,
      (addAllToSet (addAllToSet (acceptSwap s sess).2.2
            (acceptSwap s sess).2.1.changesRef xs)
          (acceptSwap s sess).2.1.removalsRef ys).contents
          (acceptSwap s sess).1.changesRef = s.contents sess.changesRef ∧
      (addAllToSet (addAllToSet (acceptSwap s sess).2.2
            (acceptSwap s sess).2.1.changesRef xs)
          (acceptSwap s sess).2.1.removalsRef ys).contents
          (acceptSwap s sess).1.removalsRef = s.contents sess.removalsRef) := by
  have h1 : sess.changesRef ≠ s.nextRef := by omega
  have h1b : sess.changesRef ≠ s.nextRef + 1 := by omega
  have h2 : sess.removalsRef ≠ s.nextRef := by omega
  have h2b : sess.removalsRef ≠ s.nextRef + 1 := by omega
  refine ⟨h1, h2b, ?_, ?_, ?_, ?_, ?_⟩
  · simp [acceptSwap, allocSet]
  · simp [acceptSwap, allocSet]
  · simp [acceptSwap, allocSet, h1, h1b]
  · simp [acceptSwap, allocSet, h2, h2b]
  · intro xs ys
    have hfc : (acceptSwap s sess).1.changesRef = sess.changesRef := rfl
    have hnc : (acceptSwap s sess).2.1.changesRef = s.nextRef := rfl
    have hnr : (acceptSwap s sess).2.1.removalsRef = s.nextRef + 1 := rfl
    constructor
    · rw [hfc, hnc, hnr, addAllToSet_frame ys _ _ _ h1b, addAllToSet_frame xs _ _ _ h1]
      simp [acceptSwap, allocSet, h1, h1b]
    · rw [hnc, hnr]
      show (addAllToSet (addAllToSet _ _ xs) _ ys).contents sess.removalsRef = _
      rw [addAllToSet_frame ys _ _ _ h2b, addAllToSet_frame xs _ _ _ h2]
      simp [acceptSwap, allocSet, h2, h2b]

def c3Store : SetStore :=
  { contents := fun r => if r = 0 then {"a"} else ∅, nextRef := 2 }

def c3Sess : RefSession := ⟨0, 1⟩

theorem spec_C3_witness :
    (acceptSwap c3Store c3Sess).1.changesRef ≠ (acceptSwap c3Store c3Sess).2.1.changesRef ∧
    (addAllToSet (addAllToSet (acceptSwap c3Store c3Sess).2.2
          (acceptSwap c3Store c3Sess).2.1.changesRef ["b"])
        (acceptSwap c3Store c3Sess).2.1.removalsRef ["c"]).contents
        (acceptSwap c3Store c3Sess).1.changesRef = c3Store.contents 0 :=
  ⟨(spec_C3 c3Store c3Sess (by decide) (by decide)).1,
   ((spec_C3 c3Store c3Sess (by decide) (by decide)).2.2.2.2.2.2 ["b"] ["c"]).1⟩

/-- The closure state of one `apply` call: the `firstRun` flag and the
`apply`-level printer's `printedAt`. -/
structure ApplyState where
  firstRun : Bool
  printedAt : Option Nat
  deriving DecidableEq

def initialApplyState : ApplyState := ⟨true, none⟩

/-- The `while (true)` startup poll of the `watchRun` hook.  The successive
results of `condition(new Set(), new Set())` (which may change over time via
external state) are supplied as a list of timed decisions; the loop consumes
them until the first `accept` (resetting the printer there) and reports each
rejection to the printer.  Returns the number of predicate evaluations
performed and the printer state (an exhausted list models a still-polling
loop, cut off for analysis). -/
def startupLoop : List (Nat × CondResult) → Option Nat → Nat × Option Nat
  | [], pa => (0, pa)
  | d :: rest, pa =>
      match d.2 with
      | CondResult.accept => (1, none)
      | CondResult.reject why =>
          let r := onFalse d.1 why pa
          let r2 := startupLoop rest r.1
          (r2.1 + 1, r2.2)

/-- The `watchRun.tapPromise` handler: run the startup loop only when
`firstRun` is still set, clearing the flag first. -/
def watchRunHandler (decisions : List (Nat × CondResult)) (st : ApplyState) :
    ApplyState × Nat :=
  if st.firstRun then
    let r := startupLoop decisions st.printedAt
    ({ firstRun := false, printedAt := r.2 }, r.1)
  else (st, 0)

/-- Successive watch-session start events, returning the per-event number of
empty-set predicate evaluations. -/
def runWatchRuns (st : ApplyState) :
    List (List (Nat × CondResult)) → ApplyState × List Nat
  | [] => (st, [])
  | ds :: dss =>
      let r := watchRunHandler ds st
      let r2 := runWatchRuns r.1 dss
      (r2.1, r.2 :: r2.2)

theorem watchRunHandler_not_first (ds : List (Nat × CondResult))
    (st : ApplyState) (h : st.firstRun = false) :
    watchRunHandler ds st = (st, 0) := by
  unfold watchRunHandler
  simp [h]

theorem runWatchRuns_not_first (st : ApplyState)
    (dss : List (List (Nat × CondResult))) (h : st.firstRun = false) :
    runWatchRuns st dss = (st, dss.map fun _ => 0) := by
  induction dss with
  | nil => rfl
  | cons ds dss ih =>
      simp only [runWatchRuns, watchRunHandler_not_first ds st h, ih, List.map_cons]

/-- C8: across any number of watch-session start events after `apply`, the
empty-set startup evaluation loop runs only on the first event; every later
event performs zero predicate evaluations. -/
theorem spec_C8 (ds : List (Nat × CondResult))
    (dss : List (List (Nat × CondResult))) :
    (runWatchRuns initialApplyState (ds :: dss)).2 =
      (startupLoop ds none).1 :: dss.map (fun _ => 0) := by
  have h : watchRunHandler ds initialApplyState =
      ({ firstRun := false, printedAt := (startupLoop ds none).2 },
       (startupLoop ds none).1) := by
    unfold watchRunHandler initialApplyState
    simp
  simp only [runWatchRuns, h]
  rw [runWatchRuns_not_first _ dss rfl]

def condAlwaysTrue : Cond := fun _ _ => CondResult.accept

/-- The two printer states of the program side by side: the `apply`-level one
used by the startup gate and the per-watch one used by the notification
poller.  Each component only ever touches its own printer. -/
structure CombinedState where
  applySt : ApplyState
  world : World
  deriving DecidableEq

/-- A watch-cycle event touches only the watch session's state. -/
def combinedWatchEvent (cond : Cond) (c : CombinedState) (e : Event) :
    CombinedState × List Output :=
  let r := stepEvent cond c.world e
  (⟨c.applySt, r.1⟩, r.2)

/-- A watch-session start event touches only the `apply`-level state. -/
def combinedWatchRun (c : CombinedState) (decisions : List (Nat × CondResult)) :
    CombinedState × Nat :=
  let r := watchRunHandler decisions c.applySt
  (⟨r.1, c.world⟩, r.2)

/-- C9 counterexample: starting from a fresh `apply`, a startup-gate rejection
at time 5 records window start 5 in the `apply`-level reporter; a subsequent
watch-cycle acceptance (which resets the watch-level reporter) leaves that
window start at `some 5` instead of clearing it, because the two components
do not share one reporter instance. -/
theorem spec_C9_counterexample :
    ((combinedWatchEvent condAlwaysTrue
        (combinedWatchRun ⟨initialApplyState, initWorld⟩
          [(5, CondResult.reject ["w"])]).1
        (Event.notify none {"a"} ∅ 100)).2 = [Output.callbackOk {"a"} ∅]) ∧
    ((combinedWatchEvent condAlwaysTrue
        (combinedWatchRun ⟨initialApplyState, initWorld⟩
          [(5, CondResult.reject ["w"])]).1
        (Event.notify none {"a"} ∅ 100)).1.applySt.printedAt = some 5) ∧
    ((combinedWatchEvent condAlwaysTrue
        (combinedWatchRun ⟨initialApplyState, initWorld⟩
          [(5, CondResult.reject ["w"])]).1
        (Event.notify none {"a"} ∅ 100)).1.applySt.printedAt ≠ none) := by
  refine ⟨?_, ?_, ?_⟩ <;> decide

/-- C9 (amended): the startup gate and the per-notification gate poller share
the predicate but hold separate reporter instances: a watch-cycle event never
modifies the `apply`-level reporter state, and a session-start event never
modifies the watch session's reporter state. -/
theorem spec_C9 (cond : Cond) (c : CombinedState) (e : Event)
    (ds : List (Nat × CondResult)) :
    (combinedWatchEvent cond c e).1.applySt = c.applySt ∧
    (combinedWatchRun c ds).1.world = c.world :=
  ⟨rfl, rfl⟩

/-- The plugin's configuration surface. -/
structure Options where
  condition : Cond
  recheckInterval : Option Int

/-- `this.options.recheckInterval || DEFAULT_RECHECK_INTERVAL`: both a missing
value and the falsy `0` fall back to the default; every other value (negative
included) is used as given. -/
def effectiveRecheckInterval (o : Option Int) : Int :=
  match o with
  | none => DEFAULT_RECHECK_INTERVAL
  | some v => if v = 0 then DEFAULT_RECHECK_INTERVAL else v

/-- The two consumers of the computed interval: the
`ConditionalAggregateFileSystem` constructor (retry scheduling) and the
startup barrier's sleep. -/
structure AppliedPlugin where
  fsRecheckInterval : Int
  sleepInterval : Int
  deriving DecidableEq

/-- `apply` computes the interval once and hands the same value to both
consumers. -/
def applyPlugin (opts : Options) : AppliedPlugin :=
  let r := effectiveRecheckInterval opts.recheckInterval
  ⟨r, r⟩

/-- C10: an omitted or zero `recheckInterval` yields the 200 ms default for
both the retry scheduling and the startup sleep; any non-zero value, negative
included, is used as given. -/
theorem spec_C10 (opts : Options) :
    (opts.recheckInterval = none → applyPlugin opts = ⟨200, 200⟩) ∧
    (opts.recheckInterval = some 0 → applyPlugin opts = ⟨200, 200⟩) ∧
    (∀ v : Int, v ≠ 0 → opts.recheckInterval = some v →
      (applyPlugin opts).fsRecheckInterval = v ∧
      (applyPlugin opts).sleepInterval = v) := by
  refine ⟨?_, ?_, ?_⟩
  · intro h
    unfold applyPlugin effectiveRecheckInterval
    rw [h]
    rfl
  · intro h
    unfold applyPlugin effectiveRecheckInterval
    rw [h]
    rfl
  · intro v hv h
    unfold applyPlugin effectiveRecheckInterval
    rw [h]
    simp [hv]

theorem spec_C10_witness :
    applyPlugin ⟨condAlwaysTrue, none⟩ = ⟨200, 200⟩ ∧
    applyPlugin ⟨condAlwaysTrue, some 0⟩ = ⟨200, 200⟩ ∧
    (applyPlugin ⟨condAlwaysTrue, some (-5)⟩).fsRecheckInterval = -5 ∧
    (applyPlugin ⟨condAlwaysTrue, some (-5)⟩).sleepInterval = -5 :=
  ⟨(spec_C10 ⟨condAlwaysTrue, none⟩).1 rfl,
   (spec_C10 ⟨condAlwaysTrue, some 0⟩).2.1 rfl,
   ((spec_C10 ⟨condAlwaysTrue, some (-5)⟩).2.2 (-5) (by decide) rfl).1,
   ((spec_C10 ⟨condAlwaysTrue, some (-5)⟩).2.2 (-5) (by decide) rfl).2⟩
